import Mathlib

/-!
Shallow embedding of `brancher/inference.py` (the inference engine of the
Brancher probabilistic-programming toolkit) and proofs about it.

The embedding models:
* the training loop of `perform_inference` (lines 87-101): per-iteration loss
  computation, the finite-loss branch (zero gradients, backpropagation,
  gradient correction, optimizer steps, loss-history append), the non-finite
  branch (warn and skip), the unconditional loss-history append after the
  branch, and the final `"loss curve"` diagnostics update;
* the optimizer-list construction (lines 70-81);
* `WassersteinVariationalGradientDescent.post_process` ensemble weights
  (lines 245-258) and `get_particle_loss` (lines 218-240);
* `SteinVariationalGradientDescent.update_bandwidth` and `correct_gradient`
  (lines 353-376);
* `MAP.construct_posterior_model` and `MAP.check_model_compatibility`
  (lines 302-311).

External collaborators (the probabilistic-model graph, torch tensors,
optimizer internals) are represented by abstract types and oracle functions,
following the interface contract stated for them; the code of this module is
translated operation by operation.  Floating-point numerics are modelled over
`ℝ` (loss bookkeeping, which only copies values, over `ℚ`).
-/

/-! ### Training loop state (`perform_inference`, lines 83-101) -/

/-- The value of `loss.detach()` at one iteration together with the result of
`torch.isfinite(...).all().item()`.  A non-finite tensor still has a recorded
(nan/inf) payload; we keep the payload abstractly as a rational. -/
structure LossVal where
  val : ℚ
  finite : Bool
deriving DecidableEq, Repr

/-- Observable actions the loop body performs, in program order. -/
inductive TrainEvent where
  | zeroGradAll
  | backward
  | correctGrad
  | optStep (i : ℕ)
  | warnNumerical
  | appendLoss
deriving DecidableEq, Repr

/-- The mutable state threaded through the training loop: the optimizer list
(`optimizers_list`, each element an abstract optimizer state of type `O`),
the model state `M` touched by `loss.backward()` and `correct_gradient`,
the `loss_list` accumulator, emitted warnings, and an event trace. -/
structure LoopState (O M : Type) where
  optimizers_list : List O
  model : M
  loss_list : List ℚ
  warnings : List String
  events : List TrainEvent
deriving DecidableEq

/-- One iteration of the `for iteration in ... range(number_iterations)` body
(lines 88-100).  `zeroF` is `opt.zero_grad()`, `updF` is `opt.update()`,
`backF` is `loss.backward()`, `correctF` is `inference_method.correct_gradient`
(all abstract: the theorems hold for any behaviour of these collaborators).
`optimizers_list[0]` on an empty list raises `IndexError`, modelled with
`Except.error`. -/
def inference_iteration {O M : Type} (zeroF updF : O → O) (backF correctF : ℕ → M → M)
    (pretraining_iterations : ℕ) (iteration : ℕ) (loss : LossVal)
    (st : LoopState O M) : Except String (LoopState O M) :=
  let branch : Except String (LoopState O M) :=
    if loss.finite then
      let opts1 := st.optimizers_list.map zeroF
      let m2 := correctF iteration (backF iteration st.model)
      match opts1 with
      | [] => Except.error "IndexError: list index out of range"
      | o0 :: rest =>
        Except.ok
          { optimizers_list :=
              updF o0 :: (if pretraining_iterations < iteration then rest.map updF else rest)
            model := m2
            loss_list := st.loss_list ++ [loss.val]
            warnings := st.warnings
            events := st.events ++ [TrainEvent.zeroGradAll, TrainEvent.backward,
                TrainEvent.correctGrad, TrainEvent.optStep 0] ++
              (if pretraining_iterations < iteration then
                (List.range rest.length).map (fun j => TrainEvent.optStep (j + 1))
              else []) }
    else
      Except.ok { st with
        warnings := st.warnings ++ ["Numerical error, skipping sample"]
        events := st.events ++ [TrainEvent.warnNumerical] }
  match branch with
  | Except.error e => Except.error e
  | Except.ok st1 =>
      Except.ok { st1 with
        loss_list := st1.loss_list ++ [loss.val]
        events := st1.events ++ [TrainEvent.appendLoss] }

/-- Folding the iteration body over a list of iteration indices, with the loss
of iteration `i` supplied by the oracle `losses i` (the external model's
`compute_loss`). -/
def inference_iters {O M : Type} (zeroF updF : O → O) (backF correctF : ℕ → M → M)
    (pretraining_iterations : ℕ) (losses : ℕ → LossVal)
    (idxs : List ℕ) (st : LoopState O M) : Except String (LoopState O M) :=
  idxs.foldlM
    (fun s i => inference_iteration zeroF updF backF correctF pretraining_iterations i (losses i) s)
    st

/-- The whole `for iteration in tqdm(range(number_iterations))` loop. -/
def perform_inference_loop {O M : Type} (zeroF updF : O → O) (backF correctF : ℕ → M → M)
    (pretraining_iterations : ℕ) (losses : ℕ → LossVal)
    (number_iterations : ℕ) (st : LoopState O M) : Except String (LoopState O M) :=
  inference_iters zeroF updF backF correctF pretraining_iterations losses
    (List.range number_iterations) st

/-- `dict.update`: replace the binding of `key` (or add it). -/
def dict_update (d : List (String × List ℚ)) (key : String) (v : List ℚ) :
    List (String × List ℚ) :=
  d.filter (fun p => p.1 ≠ key) ++ [(key, v)]

/-- The loop followed by
`joint_model.diagnostics.update({"loss curve": np.array(loss_list)})`
(line 101). -/
def perform_inference_run {O M : Type} (zeroF updF : O → O) (backF correctF : ℕ → M → M)
    (pretraining_iterations : ℕ) (losses : ℕ → LossVal) (number_iterations : ℕ)
    (st : LoopState O M) (diagnostics : List (String × List ℚ)) :
    Except String (LoopState O M × List (String × List ℚ)) :=
  (perform_inference_loop zeroF updF backF correctF pretraining_iterations losses
      number_iterations st).map
    (fun st1 => (st1, dict_update diagnostics "loss curve" st1.loss_list))

/-! ### Optimizer-list construction (lines 70-81) -/

/-- The three optimizer roles, in the order the source tests them. -/
inductive OptRole where
  | posterior
  | jointModel
  | sampler
deriving DecidableEq, Repr

/-- The `learnable_*` flags an `InferenceMethod` declares. -/
structure InferenceFlags where
  learnable_posterior : Bool
  learnable_model : Bool
  learnable_sampler : Bool
deriving DecidableEq, Repr

/-- `ProbabilisticOptimizer(model, ...)` yields a truthy `prob_opt.optimizer`
iff the model bound to the role has learnable parameters; `hasParams` is that
oracle.  `append_prob_optimizer` appends the role's optimizer when it exists
(lines 70-73). -/
def append_prob_optimizer (hasParams : OptRole → Bool) (r : OptRole)
    (acc : List OptRole) : List OptRole :=
  if hasParams r then acc ++ [r] else acc

/-- Lines 75-81: build `optimizers_list` from the strategy's flags. -/
def build_optimizers_list (flags : InferenceFlags) (hasParams : OptRole → Bool) :
    List OptRole :=
  let l0 : List OptRole := []
  let l1 := if flags.learnable_posterior then
    append_prob_optimizer hasParams OptRole.posterior l0 else l0
  let l2 := if flags.learnable_model then
    append_prob_optimizer hasParams OptRole.jointModel l1 else l1
  if flags.learnable_sampler then append_prob_optimizer hasParams OptRole.sampler l2 else l2

/-- The flag of `flags` governing a given role. -/
def roleFlag (flags : InferenceFlags) : OptRole → Bool
  | OptRole.posterior => flags.learnable_posterior
  | OptRole.jointModel => flags.learnable_model
  | OptRole.sampler => flags.learnable_sampler

/-- `ReverseKL.__init__` flags (lines 130-133). -/
def ReverseKL_flags : InferenceFlags :=
  { learnable_posterior := true, learnable_model := true, learnable_sampler := false }

/-- `WassersteinVariationalGradientDescent.__init__` flags (lines 169-172). -/
def WassersteinVGD_flags : InferenceFlags :=
  { learnable_posterior := true, learnable_model := false, learnable_sampler := true }

/-- `MaximumLikelihood.__init__` flags (lines 270-273). -/
def MaximumLikelihood_flags : InferenceFlags :=
  { learnable_posterior := false, learnable_model := true, learnable_sampler := false }

/-- `MAP.__init__` flags (lines 297-300). -/
def MAP_flags : InferenceFlags :=
  { learnable_posterior := true, learnable_model := true, learnable_sampler := false }

/-- `SteinVariationalGradientDescent.__init__` flags (lines 331-334). -/
def SteinVGD_flags : InferenceFlags :=
  { learnable_posterior := true, learnable_model := false, learnable_sampler := false }

/-! ### Wasserstein post-processing: ensemble weights (lines 245-258) -/

/-- `torch.Tensor(log_weights).max()` for a nonempty list. -/
noncomputable def listMax (l : List ℝ) : ℝ := l.foldl max (l.headD 0)

/-- Lines 255-258 of `WassersteinVariationalGradientDescent.post_process`:
`alpha = log_weights.max(); un_weights = (log_weights - alpha).exp();
weights = un_weights/un_weights.sum()`.  The per-sampler log-normalizers
`logZ` are the input. -/
noncomputable def post_process_weights (log_weights : List ℝ) : List ℝ :=
  let alpha := listMax log_weights
  let un_weights := log_weights.map (fun lw => Real.exp (lw - alpha))
  un_weights.map (fun u => u / un_weights.sum)

/-! ### Wasserstein particle loss (lines 218-240)

A per-variable batch of scalar draws is a `List ℝ`; a particle's current value
for a variable is a batch-1 tensor, broadcast against the sample batch as in
torch, hence modelled as a single scalar. -/

/-- The default cost function (line 178):
`sum_from_dim((x - y)**2, dim_index=1)` applied to a broadcast pair of a
particle value `x` and a batch of matched samples `y` - one squared distance
per batch element. -/
noncomputable def cost_function (x : ℝ) (y : List ℝ) : List ℝ := y.map (fun s => (x - s) ^ 2)

/-- Elementwise sum of two tensors (`a + b`). -/
noncomputable def vadd (a b : List ℝ) : List ℝ := (a.zip b).map (fun p => p.1 + p.2)

/-- Scalar times tensor (`c * t`). -/
noncomputable def vscale (c : ℝ) (t : List ℝ) : List ℝ := t.map (fun x => c * x)

/-- Python `sum(list_of_tensors)` (also the default
`deviation_statistics = lambda lst: sum(lst)` of line 182): the built-in sum
starts from the integer `0`, and `0 + t` is `t`. -/
noncomputable def sumTensors (l : List (List ℝ)) : List ℝ :=
  match l with
  | [] => []
  | h :: t => t.foldl vadd h

/-- `torch.sum(w * stats)`: the importance-weighted total of a batch. -/
noncomputable def weightedTotal (w stats : List ℝ) : ℝ := ((w.zip stats).map (fun p => p.1 * p.2)).sum

/-- `WassersteinVariationalGradientDescent.get_particle_loss` (lines 218-240).

The external steps are supplied as data: `joint_iw` is what
`joint_model.get_importance_weights(...).flatten()` returns for each
sampler's batch, and `pair_list` is the content of
`zip_dict(particle._get_sample(1), samples)` per particle after
`reassign_samples` - for each particle, for each shared variable, the pair of
the particle's current value and the (detached) matched sample batch.
When `biased` the computed `importance_weights` are the scalar
`1./number_samples` broadcast; the biased branch of the loss never reads
them, exactly as in the source. -/
noncomputable def get_particle_loss (biased : Bool) (number_samples : ℕ)
    (joint_iw : List (List ℝ)) (pair_list : List (List (ℝ × List ℝ))) : ℝ :=
  let importance_weights : List (List ℝ) :=
    if biased then pair_list.map (fun _ => [1 / (number_samples : ℝ)]) else joint_iw
  if ¬biased then
    ((pair_list.zip importance_weights).map (fun pw =>
      weightedTotal pw.2
        (sumTensors (pw.1.map (fun vp => cost_function vp.1 vp.2))))).sum
  else
    (pair_list.map (fun particle =>
      (sumTensors (particle.map (fun vp => cost_function vp.1 vp.2))).sum)).sum

/-- The particle loss exactly as claim C9 words it, defined from the claim
(not from the source) for comparison: both branches importance-weighted, the
biased branch uniformly with weight `1/number_samples`. -/
noncomputable def claimed_particle_loss (biased : Bool) (number_samples : ℕ)
    (joint_iw : List (List ℝ)) (pair_list : List (List (ℝ × List ℝ))) : ℝ :=
  if ¬biased then
    ((pair_list.zip joint_iw).map (fun pw =>
      weightedTotal pw.2
        (sumTensors (pw.1.map (fun vp => cost_function vp.1 vp.2))))).sum
  else
    (pair_list.map (fun particle =>
      (1 / (number_samples : ℝ)) *
        (sumTensors (particle.map (fun vp => cost_function vp.1 vp.2))).sum)).sum

/-! ### Stein variational gradient descent (lines 328-376) -/

/-- `SteinVariationalGradientDescent.deviation` (line 335):
`np.sum((x - y)**2)` over a flattened pair of variable values. -/
noncomputable def deviation (x y : List ℝ) : ℝ := ((x.zip y).map (fun p => (p.1 - p.2) ^ 2)).sum

/-- `sum([self.deviation(v1.value, v2.value) for v1, v2 in
zip(p1.flatten(), p2.flatten())])`: total squared deviation between two
particles, a particle's flattened variables being a `List (List ℝ)`. -/
noncomputable def particleSqDeviation (p q : List (List ℝ)) : ℝ :=
  ((p.zip q).map (fun vp => deviation vp.1 vp.2)).sum

/-- The `distances` comprehension of `update_bandwidth` (lines 370-374): for
every ordered pair of distinct particles (`particle1 is not particle2`,
i.e. distinct positions), the euclidean distance
`np.sqrt(sum-of-deviations)`. -/
noncomputable def pairwiseDistances (ps : List (List (List ℝ))) : List ℝ :=
  (List.range ps.length).flatMap (fun i =>
    ((List.range ps.length).filter (fun j => decide (j ≠ i))).map (fun j =>
      Real.sqrt (particleSqDeviation (ps.getD i []) (ps.getD j []))))

/-- `np.median`: sort; middle element for odd length, mean of the two middle
elements for even length. -/
noncomputable def npMedian (l : List ℝ) : ℝ :=
  let s := l.insertionSort (fun a b => a ≤ b)
  if l.length % 2 = 1 then s.getD (l.length / 2) 0
  else (s.getD (l.length / 2 - 1) 0 + s.getD (l.length / 2) 0) / 2

/-- `update_bandwidth` (lines 369-376):
`bw = 2*np.median(distances)**2/np.log(len(posterior_model))`. -/
noncomputable def update_bandwidth (ps : List (List (List ℝ))) : ℝ :=
  2 * npMedian (pairwiseDistances ps) ^ 2 / Real.log ps.length

/-- `self.kernel = lambda d, bw: np.exp(-d/(2*bw))` (line 336). -/
noncomputable def kernel (d bw : ℝ) : ℝ := Real.exp (-d / (2 * bw))

/-- One SVGD particle: its flattened variables' values and their current
gradients (`variable.value` and `variable.value.grad`). -/
structure SParticle where
  values : List (List ℝ)
  grads : List (List ℝ)

/-- The default particle used for out-of-range list access. -/
def SParticle.empty : SParticle := { values := [], grads := [] }

/-- Lines 356-359: `kernel_matrix`, the outer comprehension ranging over
`particle2`, the inner over `particle1`. -/
noncomputable def kernelMatrix (bw : ℝ) (ps : List SParticle) : List (List ℝ) :=
  ps.map (fun particle2 => ps.map (fun particle1 =>
    kernel (particleSqDeviation particle1.values particle2.values) bw))

/-- Lines 360-363: `interaction_matrix`, outer index `particle_index2`, inner
index `particle_index1`, one tensor
`-(variable1.value - variable2.value)*kernel_matrix[particle_index1][particle_index2]/bw`
per zipped variable pair. -/
noncomputable def interactionMatrix (bw : ℝ) (ps : List SParticle) :
    List (List (List (List ℝ))) :=
  let km := kernelMatrix bw ps
  ps.enum.map (fun pi2 => ps.enum.map (fun pi1 =>
    (pi1.2.values.zip pi2.2.values).map (fun vp =>
      (vp.1.zip vp.2).map (fun z =>
        -(z.1 - z.2) * ((km.getD pi1.1 []).getD pi2.1 0) / bw))))

/-- `SteinVariationalGradientDescent.correct_gradient` (lines 353-367): update
the bandwidth, snapshot the raw gradients, build the kernel and interaction
matrices, then overwrite every particle's per-variable gradient.  Returns the
new bandwidth state together with the updated particles. -/
noncomputable def correct_gradient (ps : List SParticle) : ℝ × List SParticle :=
  let bw := update_bandwidth (ps.map (fun p => p.values))
  let gradients := ps.map (fun p => p.grads)
  let km := kernelMatrix bw ps
  let im := interactionMatrix bw ps
  (bw, ps.enum.map (fun pip =>
    { pip.2 with grads := pip.2.grads.enum.map (fun viv =>
        sumTensors (gradients.enum.map (fun og =>
          vadd (vscale ((km.getD pip.1 []).getD og.1 0) (og.2.getD viv.1 []))
            (((im.getD pip.1 []).getD og.1 []).getD viv.1 [])))) }))

/-- The corrected gradient of particle `i` at variable `v` as the source
computes it, written as a direct sum over all particles `j`:
`k(i,j) * raw_grad(j,v) + (value(i,v) - value(j,v)) * k(i,j) / bw`
elementwise.  This is the amended form of claim C7 (the repulsion sign is
`+(value_i - value_j)`, not `-(value_i - value_j)`). -/
noncomputable def steinUpdatedGrad (bw : ℝ) (ps : List SParticle) (i v : ℕ) : List ℝ :=
  sumTensors ((List.range ps.length).map (fun j =>
    vadd (vscale (kernel (particleSqDeviation (ps.getD i SParticle.empty).values
        (ps.getD j SParticle.empty).values) bw) ((ps.getD j SParticle.empty).grads.getD v []))
      ((((ps.getD i SParticle.empty).values.getD v []).zip
          ((ps.getD j SParticle.empty).values.getD v [])).map
        (fun z => (z.1 - z.2) * kernel (particleSqDeviation (ps.getD i SParticle.empty).values
          (ps.getD j SParticle.empty).values) bw / bw))))

/-- The corrected gradient exactly as claim C7 words it, defined from the
claim (not from the source): the repulsion term is
`-(value_i - value_j) * k(i,j) / bandwidth`. -/
noncomputable def claimedSteinGrad (bw : ℝ) (ps : List SParticle) (i v : ℕ) : List ℝ :=
  sumTensors ((List.range ps.length).map (fun j =>
    vadd (vscale (kernel (particleSqDeviation (ps.getD i SParticle.empty).values
        (ps.getD j SParticle.empty).values) bw) ((ps.getD j SParticle.empty).grads.getD v []))
      ((((ps.getD i SParticle.empty).values.getD v []).zip
          ((ps.getD j SParticle.empty).values.getD v [])).map
        (fun z => -(z.1 - z.2) * kernel (particleSqDeviation (ps.getD i SParticle.empty).values
          (ps.getD j SParticle.empty).values) bw / bw))))

/-! ### MAP posterior construction and compatibility check (lines 294-311) -/

/-- What the MAP code inspects about a model variable: `isinstance` kind
tests, observedness, a name, and (for the constructed point-mass variables)
the stored initial value and learnability. -/
inductive VarKind where
  | root
  | deterministic
  | random
deriving DecidableEq, Repr

/-- A brancher variable as seen by `MAP.construct_posterior_model` and
`MAP.check_model_compatibility`. -/
structure BVar where
  name : String
  kind : VarKind
  is_observed : Bool
  learnable : Bool
  ival : List ℝ

/-- `value[0, 0, :]`: the first batch entry of the first sample of a drawn
value of shape (samples, batch, event). -/
noncomputable def slice00 (v : List (List (List ℝ))) : List ℝ := (v.getD 0 []).getD 0 []

/-- The filter of lines 304-306: keep a sampled variable iff it is not
observed and not a `DeterministicVariable` or `RootVariable` instance. -/
def mapFilterPred (v : BVar) : Prop :=
  v.is_observed = false ∧ ¬(v.kind = VarKind.deterministic ∨ v.kind = VarKind.root)

instance : DecidablePred mapFilterPred := fun v => by
  unfold mapFilterPred; infer_instance

/-- `MAP.construct_posterior_model` (lines 302-307).  The drawn
`test_sample = joint_model._get_sample(1, observed=False)` is supplied as the
list of its (variable, value) items - per the model interface contract a
sample maps every variable of the joint model to a batch of values.  For each
item passing the filter, a learnable `DeterministicVariable` named after the
variable and seeded at `value[0, 0, :]` is created. -/
noncomputable def construct_posterior_model (test_sample : List (BVar × List (List (List ℝ)))) :
    List BVar :=
  test_sample.filterMap (fun pv =>
    if mapFilterPred pv.1 then
      some { name := pv.1.name, kind := VarKind.deterministic, is_observed := false,
             learnable := true, ival := slice00 pv.2 }
    else none)

/-- `MAP.check_model_compatibility` (lines 309-311): assert that every
variable of `posterior_model.flatten()` is a `RootVariable` or a
`DeterministicVariable`; `Except.error` models the `AssertionError`. -/
def check_model_compatibility (posterior_model : List BVar) : Except String Unit :=
  if posterior_model.all (fun v =>
      decide (v.kind = VarKind.root ∨ v.kind = VarKind.deterministic)) then
    Except.ok ()
  else Except.error "AssertionError"

/-! ### Helper lemmas about the training loop -/

/-- A non-finite-loss iteration only warns and appends the loss value: the
optimizer list and the model state are untouched and no error is raised. -/
theorem inference_iteration_nonfinite {O M : Type} (zeroF updF : O → O)
    (backF correctF : ℕ → M → M) (pre i : ℕ) (loss : LossVal) (st : LoopState O M)
    (h : loss.finite = false) :
    inference_iteration zeroF updF backF correctF pre i loss st =
      Except.ok { st with
        loss_list := st.loss_list ++ [loss.val]
        warnings := st.warnings ++ ["Numerical error, skipping sample"]
        events := st.events ++ [TrainEvent.warnNumerical, TrainEvent.appendLoss] } := by
  simp [inference_iteration, h]

/-- Binding an `Except.ok` just applies the continuation. -/
theorem except_ok_bind {ε α β : Type} (a : α) (f : α → Except ε β) :
    (Except.ok (ε := ε) a >>= f) = f a := rfl

/-- Running the loop body over any set of iterations whose losses are all
non-finite succeeds and leaves optimizers and model untouched. -/
theorem inference_iters_nonfinite {O M : Type} (zeroF updF : O → O)
    (backF correctF : ℕ → M → M) (pre : ℕ) (losses : ℕ → LossVal) :
    ∀ (idxs : List ℕ) (st : LoopState O M),
      (∀ j ∈ idxs, (losses j).finite = false) →
      inference_iters zeroF updF backF correctF pre losses idxs st =
        Except.ok { st with
          loss_list := st.loss_list ++ idxs.map (fun j => (losses j).val)
          warnings := st.warnings ++ idxs.map (fun _ => "Numerical error, skipping sample")
          events := st.events ++
            idxs.flatMap (fun _ => [TrainEvent.warnNumerical, TrainEvent.appendLoss]) }
  | [], st, _ => by
    simp only [List.map_nil, List.flatMap_nil, List.append_nil]
    rfl
  | i :: t, st, h => by
    have hi : (losses i).finite = false := h i (by simp)
    have ht : ∀ j ∈ t, (losses j).finite = false := fun j hj => h j (by simp [hj])
    have step := inference_iteration_nonfinite zeroF updF backF correctF pre i (losses i) st hi
    have rest := inference_iters_nonfinite zeroF updF backF correctF pre losses t
      { st with
        loss_list := st.loss_list ++ [(losses i).val]
        warnings := st.warnings ++ ["Numerical error, skipping sample"]
        events := st.events ++ [TrainEvent.warnNumerical, TrainEvent.appendLoss] } ht
    simp only [inference_iters, List.foldlM_cons] at *
    rw [step, except_ok_bind, rest]
    simp

/-- With an empty optimizer list, an iteration whose loss is finite raises the
IndexError of `optimizers_list[0]`. -/
theorem inference_iteration_empty_finite {O M : Type} (zeroF updF : O → O)
    (backF correctF : ℕ → M → M) (pre i : ℕ) (loss : LossVal) (st : LoopState O M)
    (hfin : loss.finite = true) (hopts : st.optimizers_list = []) :
    inference_iteration zeroF updF backF correctF pre i loss st =
      Except.error "IndexError: list index out of range" := by
  simp [inference_iteration, hfin, hopts]

/-- With an empty optimizer list, the loop fails with the IndexError as soon
as any listed iteration has a finite loss. -/
theorem inference_iters_empty_error {O M : Type} (zeroF updF : O → O)
    (backF correctF : ℕ → M → M) (pre : ℕ) (losses : ℕ → LossVal) :
    ∀ (idxs : List ℕ) (st : LoopState O M),
      st.optimizers_list = [] → (∃ j ∈ idxs, (losses j).finite = true) →
      inference_iters zeroF updF backF correctF pre losses idxs st =
        Except.error "IndexError: list index out of range"
  | [], _, _, h => by simp at h
  | i :: t, st, hopts, h => by
    by_cases hi : (losses i).finite = true
    · have step := inference_iteration_empty_finite zeroF updF backF correctF pre i
        (losses i) st hi hopts
      simp only [inference_iters, List.foldlM_cons]
      rw [step]
      rfl
    · have hi' : (losses i).finite = false := by
        cases hf : (losses i).finite
        · rfl
        · exact absurd hf hi
      have ht : ∃ j ∈ t, (losses j).finite = true := by
        rcases h with ⟨j, hj, hfin⟩
        rcases List.mem_cons.mp hj with rfl | hmem
        · exact absurd hfin hi
        · exact ⟨j, hmem, hfin⟩
      have step := inference_iteration_nonfinite zeroF updF backF correctF pre i (losses i) st hi'
      have rest := inference_iters_empty_error zeroF updF backF correctF pre losses t
        { st with
          loss_list := st.loss_list ++ [(losses i).val]
          warnings := st.warnings ++ ["Numerical error, skipping sample"]
          events := st.events ++ [TrainEvent.warnNumerical, TrainEvent.appendLoss] }
        hopts ht
      simp only [inference_iters, List.foldlM_cons] at *
      rw [step, except_ok_bind]
      simpa using rest

/-! ### Claims C1-C4 and C10: the training loop -/

/-- C1 (code defect, evaluated at the failing input): with one optimizer, a
finite loss 5 at iteration 0 and a non-finite loss 7 at iteration 1, the
loop appends the finite loss twice (line 97 inside the finite branch and
line 100 after it) and appends the non-finite loss once, so the recorded
"loss curve" is [5, 5, 7] - not one entry per stepped iteration as the claim
(and the spec's stated intent) requires. -/
theorem c1_loss_history_double_append :
    perform_inference_run (O := ℚ) (M := ℚ) id id (fun _ m => m) (fun _ m => m) 0
        (fun i => if i = 0 then { val := 5, finite := true } else { val := 7, finite := false })
        2 { optimizers_list := [0], model := 0, loss_list := [], warnings := [], events := [] }
        [] =
      Except.ok
        ({ optimizers_list := [0], model := 0, loss_list := [5, 5, 7],
           warnings := ["Numerical error, skipping sample"],
           events := [TrainEvent.zeroGradAll, TrainEvent.backward, TrainEvent.correctGrad,
             TrainEvent.optStep 0, TrainEvent.appendLoss, TrainEvent.warnNumerical,
             TrainEvent.appendLoss] },
         [("loss curve", [5, 5, 7])]) := by
  rfl

/-- C2: iterations whose loss is non-finite perform no gradient clearing, no
backpropagation, no gradient correction and no optimizer step - the optimizer
states and the model state are returned unchanged - emit one warning each,
append the loss value, and never raise; this holds for any list of such
iterations (in particular any `k` consecutive ones) and for arbitrary
behaviour of the optimizer/model collaborators. -/
theorem c2_nonfinite_loss_skips_step (O M : Type) (zeroF updF : O → O)
    (backF correctF : ℕ → M → M) (pre : ℕ) (losses : ℕ → LossVal)
    (idxs : List ℕ) (st : LoopState O M)
    (h : ∀ j ∈ idxs, (losses j).finite = false) :
    inference_iters zeroF updF backF correctF pre losses idxs st =
      Except.ok { st with
        loss_list := st.loss_list ++ idxs.map (fun j => (losses j).val)
        warnings := st.warnings ++ idxs.map (fun _ => "Numerical error, skipping sample")
        events := st.events ++
          idxs.flatMap (fun _ => [TrainEvent.warnNumerical, TrainEvent.appendLoss]) } :=
  inference_iters_nonfinite zeroF updF backF correctF pre losses idxs st h

/-- Witness for C2 at a concrete input: two consecutive non-finite iterations
leave the single optimizer (state 5) and the model (state 7) unchanged. -/
theorem c2_nonfinite_loss_skips_step_witness :
    (∀ j ∈ [3, 4], ((fun _ => ({ val := 9, finite := false } : LossVal)) j).finite = false) ∧
    inference_iters (O := ℚ) (M := ℚ) (fun o => o + 1) (fun o => o * 2) (fun _ m => m + 1)
        (fun _ m => m) 0 (fun _ => { val := 9, finite := false }) [3, 4]
        { optimizers_list := [5], model := 7, loss_list := [], warnings := [], events := [] } =
      Except.ok
        { optimizers_list := [5], model := 7, loss_list := [9, 9],
          warnings := ["Numerical error, skipping sample", "Numerical error, skipping sample"],
          events := [TrainEvent.warnNumerical, TrainEvent.appendLoss,
            TrainEvent.warnNumerical, TrainEvent.appendLoss] } :=
  ⟨by decide,
    (c2_nonfinite_loss_skips_step ℚ ℚ (fun o => o + 1) (fun o => o * 2) (fun _ m => m + 1)
      (fun _ m => m) 0 (fun _ => { val := 9, finite := false }) [3, 4]
      { optimizers_list := [5], model := 7, loss_list := [], warnings := [], events := [] }
      (by decide)).trans (by rfl)⟩

/-- C3: for any strategy flags, the optimizer list holds exactly the roles
whose learnable flag is set and whose bound model yields an optimizer, in the
fixed order posterior, joint model, sampler. -/
theorem c3_optimizer_construction (flags : InferenceFlags) (hasParams : OptRole → Bool) :
    build_optimizers_list flags hasParams =
      [OptRole.posterior, OptRole.jointModel, OptRole.sampler].filter
        (fun r => roleFlag flags r && hasParams r) := by
  obtain ⟨p, m, s⟩ := flags
  cases p <;> cases m <;> cases s <;>
    cases hp : hasParams OptRole.posterior <;>
    cases hm : hasParams OptRole.jointModel <;>
    cases hs : hasParams OptRole.sampler <;>
      simp [build_optimizers_list, append_prob_optimizer, roleFlag, hp, hm, hs]

/-- C4: in an iteration with a finite loss and a nonempty optimizer list, the
first optimizer is stepped unconditionally and every later optimizer is
stepped exactly when `pretraining_iterations < iteration`. -/
theorem c4_pretraining_step_schedule (O M : Type) (zeroF updF : O → O)
    (backF correctF : ℕ → M → M) (pre i : ℕ) (loss : LossVal) (st : LoopState O M)
    (o0 : O) (rest : List O)
    (hfin : loss.finite = true) (hopts : st.optimizers_list = o0 :: rest) :
    inference_iteration zeroF updF backF correctF pre i loss st =
      Except.ok
        { optimizers_list := updF (zeroF o0) ::
            (if pre < i then (rest.map zeroF).map updF else rest.map zeroF)
          model := correctF i (backF i st.model)
          loss_list := st.loss_list ++ [loss.val, loss.val]
          warnings := st.warnings
          events := st.events ++ [TrainEvent.zeroGradAll, TrainEvent.backward,
              TrainEvent.correctGrad, TrainEvent.optStep 0] ++
            (if pre < i then (List.range rest.length).map (fun j => TrainEvent.optStep (j + 1))
             else []) ++ [TrainEvent.appendLoss] } := by
  by_cases hpre : pre < i <;>
    simp [inference_iteration, hfin, hopts, hpre]

/-- Witness for C4 at a concrete input: at iteration 2 with pretraining
threshold 0, both the first and the second optimizer are stepped. -/
theorem c4_pretraining_step_schedule_witness :
    (({ val := 3, finite := true } : LossVal).finite = true) ∧
    (({ optimizers_list := [10, 20], model := 1, loss_list := [], warnings := [],
        events := [] } : LoopState ℕ ℕ).optimizers_list = 10 :: [20]) ∧
    inference_iteration (O := ℕ) (M := ℕ) (fun o => o + 1) (fun o => o * 2)
        (fun _ m => m + 5) (fun _ m => m * 3) 0 2 { val := 3, finite := true }
        { optimizers_list := [10, 20], model := 1, loss_list := [], warnings := [],
          events := [] } =
      Except.ok
        { optimizers_list := [22, 42], model := 18, loss_list := [3, 3], warnings := [],
          events := [TrainEvent.zeroGradAll, TrainEvent.backward, TrainEvent.correctGrad,
            TrainEvent.optStep 0, TrainEvent.optStep 1, TrainEvent.appendLoss] } :=
  ⟨rfl, rfl,
    (c4_pretraining_step_schedule ℕ ℕ (fun o => o + 1) (fun o => o * 2) (fun _ m => m + 5)
      (fun _ m => m * 3) 0 2 { val := 3, finite := true }
      { optimizers_list := [10, 20], model := 1, loss_list := [], warnings := [], events := [] }
      10 [20] rfl rfl).trans (congrArg Except.ok (by decide))⟩

/-- C10: when the optimizer list is empty, the loop completes exactly when
every iteration's loss is non-finite (vacuously including a zero iteration
count), and any finite-loss iteration makes the run raise the IndexError of
the unconditional `optimizers_list[0]` step. -/
theorem c10_empty_optimizer_list (O M : Type) (zeroF updF : O → O)
    (backF correctF : ℕ → M → M) (pre : ℕ) (losses : ℕ → LossVal) (n : ℕ)
    (st : LoopState O M) (hopts : st.optimizers_list = []) :
    ((perform_inference_loop zeroF updF backF correctF pre losses n st).isOk = true ↔
      ∀ i < n, (losses i).finite = false) ∧
    ((∃ i, i < n ∧ (losses i).finite = true) →
      perform_inference_loop zeroF updF backF correctF pre losses n st =
        Except.error "IndexError: list index out of range") := by
  have herr : (∃ i, i < n ∧ (losses i).finite = true) →
      perform_inference_loop zeroF updF backF correctF pre losses n st =
        Except.error "IndexError: list index out of range" := by
    rintro ⟨i, hi, hf⟩
    exact inference_iters_empty_error zeroF updF backF correctF pre losses (List.range n) st
      hopts ⟨i, List.mem_range.mpr hi, hf⟩
  refine ⟨⟨?_, ?_⟩, herr⟩
  · intro hok
    by_contra hno
    push_neg at hno
    obtain ⟨i, hi, hf⟩ := hno
    rw [herr ⟨i, hi, Bool.not_eq_false _ ▸ hf⟩] at hok
    exact Bool.false_ne_true hok
  · intro hall
    rw [perform_inference_loop,
      inference_iters_nonfinite zeroF updF backF correctF pre losses (List.range n) st
        (fun j hj => hall j (List.mem_range.mp hj))]
    rfl

/-- Witness for C10 at a concrete input: with no optimizers and a finite loss
at iteration 0, the run fails with the IndexError; the completion equivalence
is instantiated at the same input. -/
theorem c10_empty_optimizer_list_witness :
    (({ optimizers_list := [], model := 0, loss_list := [], warnings := [],
        events := [] } : LoopState ℚ ℚ).optimizers_list = []) ∧
    (((perform_inference_loop (O := ℚ) (M := ℚ) id id (fun _ m => m) (fun _ m => m) 0
          (fun _ => { val := 1, finite := true }) 1
          { optimizers_list := [], model := 0, loss_list := [], warnings := [],
            events := [] }).isOk = true ↔
        ∀ i < 1, ((fun _ => ({ val := 1, finite := true } : LossVal)) i).finite = false) ∧
      ((∃ i, i < 1 ∧ ((fun _ => ({ val := 1, finite := true} : LossVal)) i).finite = true) →
        perform_inference_loop (O := ℚ) (M := ℚ) id id (fun _ m => m) (fun _ m => m) 0
            (fun _ => { val := 1, finite := true }) 1
            { optimizers_list := [], model := 0, loss_list := [], warnings := [],
              events := [] } =
          Except.error "IndexError: list index out of range")) :=
  ⟨rfl, c10_empty_optimizer_list ℚ ℚ id id (fun _ m => m) (fun _ m => m) 0
    (fun _ => { val := 1, finite := true }) 1
    { optimizers_list := [], model := 0, loss_list := [], warnings := [], events := [] } rfl⟩

/-! ### Claim C5: Wasserstein ensemble weights -/

/-- The seed of a max-fold is bounded by the fold. -/
theorem le_foldl_max (l : List ℝ) : ∀ a : ℝ, a ≤ l.foldl max a := by
  induction l with
  | nil => intro a; simp
  | cons b t ih =>
    intro a
    calc a ≤ max a b := le_max_left a b
    _ ≤ t.foldl max (max a b) := ih (max a b)

/-- Every member of a list is bounded by a max-fold over it. -/
theorem mem_le_foldl_max (l : List ℝ) : ∀ (a x : ℝ), x ∈ l → x ≤ l.foldl max a := by
  induction l with
  | nil => intro a x hx; simp at hx
  | cons b t ih =>
    intro a x hx
    rcases List.mem_cons.mp hx with rfl | hmem
    · calc x ≤ max a x := le_max_right a x
      _ ≤ t.foldl max (max a x) := le_foldl_max t (max a x)
    · exact ih (max a b) x hmem

/-- Every member of a list is bounded by its `listMax`. -/
theorem le_listMax (l : List ℝ) (x : ℝ) (hx : x ∈ l) : x ≤ listMax l :=
  mem_le_foldl_max l (l.headD 0) x hx

/-- A max-fold over a list of copies of the seed returns the seed. -/
theorem foldl_max_const (l : List ℝ) : ∀ c : ℝ, (∀ x ∈ l, x = c) → l.foldl max c = c := by
  induction l with
  | nil => intro c _; rfl
  | cons b t ih =>
    intro c h
    have hb : b = c := h b (by simp)
    have ht : ∀ x ∈ t, x = c := fun x hx => h x (by simp [hx])
    simp only [List.foldl_cons, hb, max_self]
    exact ih c ht

/-- The `listMax` of a nonempty constant list is that constant. -/
theorem listMax_const (l : List ℝ) (c : ℝ) (hne : l ≠ []) (h : ∀ x ∈ l, x = c) :
    listMax l = c := by
  have hhead : l.headD 0 = c := by
    cases l with
    | nil => exact absurd rfl hne
    | cons b t => exact h b (by simp)
  unfold listMax
  rw [hhead]
  exact foldl_max_const l c h

/-- C5: the ensemble weights of `WassersteinVariationalGradientDescent.post_process`
are the max-subtracted softmax of the log-normalizers: each weight is
non-negative, the weights sum to 1, and equal log-normalizers give the
uniform weight 1/n. -/
theorem c5_post_process_softmax (log_weights : List ℝ) (h : log_weights ≠ []) :
    (∀ w ∈ post_process_weights log_weights, 0 ≤ w) ∧
    (post_process_weights log_weights).sum = 1 ∧
    ((∀ x ∈ log_weights, ∀ y ∈ log_weights, x = y) →
      ∀ w ∈ post_process_weights log_weights, w = 1 / log_weights.length) := by
  set alpha := listMax log_weights with halpha
  set un := log_weights.map (fun lw => Real.exp (lw - alpha)) with hun
  have hun_pos : ∀ u ∈ un, 0 < u := by
    intro u hu
    rcases List.mem_map.mp hu with ⟨lw, _, rfl⟩
    exact Real.exp_pos _
  have hun_ne : un ≠ [] := by simp [hun, h]
  have hsum_pos : 0 < un.sum := List.sum_pos un hun_pos hun_ne
  have hw : post_process_weights log_weights = un.map (fun u => u / un.sum) := rfl
  refine ⟨?_, ?_, ?_⟩
  · intro w hw'
    rw [hw] at hw'
    rcases List.mem_map.mp hw' with ⟨u, hu, rfl⟩
    exact div_nonneg (hun_pos u hu).le hsum_pos.le
  · rw [hw]
    have : (un.map (fun u => u / un.sum)).sum = un.sum * (un.sum)⁻¹ := by
      simp only [div_eq_mul_inv]
      have := List.sum_map_mul_right un id (un.sum)⁻¹
      simpa using this
    rw [this, mul_inv_cancel₀ (ne_of_gt hsum_pos)]
  · intro heq w hw'
    have hc : ∀ x ∈ log_weights, x = log_weights.head h :=
      fun x hx => heq x hx (log_weights.head h) (List.head_mem h)
    have halpha_c : alpha = log_weights.head h := listMax_const log_weights _ h hc
    have hun_repl : un = List.replicate log_weights.length 1 := by
      rw [hun]
      have : ∀ lw ∈ log_weights, Real.exp (lw - alpha) = (fun _ : ℝ => (1:ℝ)) lw := by
        intro lw hlw
        simp [halpha_c, hc lw hlw]
      rw [List.map_congr_left this, List.map_const']
    rw [hw, hun_repl] at hw'
    have hsum_repl : (List.replicate log_weights.length (1:ℝ)).sum = log_weights.length := by
      simp
    rcases List.mem_map.mp hw' with ⟨u, hu, rfl⟩
    have hu1 : u = 1 := (List.eq_of_mem_replicate hu)
    rw [hu1, hsum_repl]

/-- Witness for C5 at the concrete log-normalizers [0, 0]: weights are
non-negative, sum to 1, and are uniform (both 1/2). -/
theorem c5_post_process_softmax_witness :
    ([(0:ℝ), 0] ≠ []) ∧
    ((∀ w ∈ post_process_weights [(0:ℝ), 0], 0 ≤ w) ∧
     (post_process_weights [(0:ℝ), 0]).sum = 1 ∧
     ((∀ x ∈ [(0:ℝ), 0], ∀ y ∈ [(0:ℝ), 0], x = y) →
       ∀ w ∈ post_process_weights [(0:ℝ), 0], w = 1 / ([(0:ℝ), 0].length))) :=
  ⟨by simp, c5_post_process_softmax [(0:ℝ), 0] (by simp)⟩

/-! ### Claim C6: the SVGD median-heuristic bandwidth -/

/-- Indexing with default 0 commutes with scaling every element. -/
theorem getD_map_mul (c : ℝ) (l : List ℝ) (k : ℕ) :
    (l.map (fun x => c * x)).getD k 0 = c * l.getD k 0 := by
  by_cases hk : k < l.length
  · rw [List.getD_eq_getElem _ _ (by simpa using hk), List.getD_eq_getElem _ _ hk,
      List.getElem_map]
  · rw [List.getD_eq_default _ _ (by simp; omega), List.getD_eq_default _ _ (by omega),
      mul_zero]

/-- Sorting commutes with scaling by a non-negative constant. -/
theorem insertionSort_map_mul (c : ℝ) (hc : 0 ≤ c) (l : List ℝ) :
    (l.map (fun x => c * x)).insertionSort (fun a b => a ≤ b) =
      (l.insertionSort (fun a b => a ≤ b)).map (fun x => c * x) := by
  have hperm : List.Perm ((l.map (fun x => c * x)).insertionSort (fun a b => a ≤ b))
      ((l.insertionSort (fun a b => a ≤ b)).map (fun x => c * x)) :=
    (List.perm_insertionSort _ _).trans
      (((List.perm_insertionSort (fun a b => a ≤ b) l).map (fun x => c * x)).symm)
  have hs1 : ((l.map (fun x => c * x)).insertionSort (fun a b => a ≤ b)).Sorted
      (fun a b => a ≤ b) := List.sorted_insertionSort _ _
  have hs2 : ((l.insertionSort (fun a b => a ≤ b)).map (fun x => c * x)).Sorted
      (fun a b => a ≤ b) :=
    List.Pairwise.map _ (fun a b hab => mul_le_mul_of_nonneg_left hab hc)
      (List.sorted_insertionSort _ l)
  exact List.eq_of_perm_of_sorted hperm hs1 hs2

/-- The numpy median commutes with scaling by a non-negative constant. -/
theorem npMedian_map_mul (c : ℝ) (hc : 0 ≤ c) (l : List ℝ) :
    npMedian (l.map (fun x => c * x)) = c * npMedian l := by
  simp only [npMedian, List.length_map, insertionSort_map_mul c hc l, getD_map_mul]
  by_cases hodd : l.length % 2 = 1
  · simp [hodd]
  · simp only [hodd, if_false]
    ring

/-- The numpy median of a nonempty list of positive reals is positive. -/
theorem npMedian_pos (l : List ℝ) (hne : l ≠ []) (hpos : ∀ x ∈ l, 0 < x) :
    0 < npMedian l := by
  have hlen : 0 < l.length := List.length_pos.mpr hne
  have hslen : (l.insertionSort (fun a b => a ≤ b)).length = l.length :=
    List.length_insertionSort _ l
  have hmem_pos : ∀ k, k < l.length → 0 < (l.insertionSort (fun a b => a ≤ b)).getD k 0 := by
    intro k hk
    rw [List.getD_eq_getElem _ _ (by omega)]
    exact hpos _ ((List.mem_insertionSort _).mp (List.getElem_mem _))
  simp only [npMedian]
  by_cases hodd : l.length % 2 = 1
  · simp only [hodd, if_true]
    exact hmem_pos _ (Nat.div_lt_self hlen (by norm_num))
  · simp only [hodd, if_false]
    have h1 : 0 < (l.insertionSort (fun a b => a ≤ b)).getD (l.length / 2 - 1) 0 :=
      hmem_pos _ (by omega)
    have h2 : 0 < (l.insertionSort (fun a b => a ≤ b)).getD (l.length / 2) 0 :=
      hmem_pos _ (Nat.div_lt_self hlen (by norm_num))
    positivity

/-- The numpy median of a list whose elements are all zero is zero. -/
theorem npMedian_all_zero (l : List ℝ) (h : ∀ x ∈ l, x = 0) : npMedian l = 0 := by
  have hgetD : ∀ k, (l.insertionSort (fun a b => a ≤ b)).getD k 0 = 0 := by
    intro k
    by_cases hk : k < (l.insertionSort (fun a b => a ≤ b)).length
    · rw [List.getD_eq_getElem _ _ hk]
      exact h _ ((List.mem_insertionSort _).mp (List.getElem_mem _))
    · rw [List.getD_eq_default _ _ (by omega)]
  simp only [npMedian]
  by_cases hodd : l.length % 2 = 1
  · rw [if_pos hodd, hgetD]
  · rw [if_neg hodd, hgetD, hgetD]
    norm_num

/-- Scaling both arguments by `c` multiplies the per-variable deviation by
`c ^ 2`. -/
theorem deviation_map_mul (c : ℝ) (x y : List ℝ) :
    deviation (x.map (fun t => c * t)) (y.map (fun t => c * t)) = c ^ 2 * deviation x y := by
  unfold deviation
  rw [List.zip_map, List.map_map]
  have : ((fun p : ℝ × ℝ => (p.1 - p.2) ^ 2) ∘ Prod.map (fun t => c * t) (fun t => c * t)) =
      fun p : ℝ × ℝ => c ^ 2 * (p.1 - p.2) ^ 2 := by
    funext p
    simp [Prod.map]
    ring
  rw [this]
  have := List.sum_map_mul_left (x.zip y) (fun p : ℝ × ℝ => (p.1 - p.2) ^ 2) (c ^ 2)
  simpa using this

/-- Scaling every value of both particles by `c` multiplies the summed squared
deviation by `c ^ 2`. -/
theorem particleSqDeviation_map_mul (c : ℝ) (p q : List (List ℝ)) :
    particleSqDeviation (p.map (fun v => v.map (fun t => c * t)))
      (q.map (fun v => v.map (fun t => c * t))) = c ^ 2 * particleSqDeviation p q := by
  unfold particleSqDeviation
  rw [List.zip_map, List.map_map]
  have : ((fun vp : List ℝ × List ℝ => deviation vp.1 vp.2) ∘
      Prod.map (fun v : List ℝ => v.map (fun t => c * t))
        (fun v : List ℝ => v.map (fun t => c * t))) =
      fun vp : List ℝ × List ℝ => c ^ 2 * deviation vp.1 vp.2 := by
    funext vp
    simp [Prod.map, deviation_map_mul]
  rw [this]
  have := List.sum_map_mul_left (p.zip q) (fun vp : List ℝ × List ℝ => deviation vp.1 vp.2)
    (c ^ 2)
  simpa using this

/-- Membership in the SVGD pairwise-distance list: exactly the euclidean
distances between particles at two distinct positions. -/
theorem mem_pairwiseDistances (ps : List (List (List ℝ))) (x : ℝ) :
    x ∈ pairwiseDistances ps ↔
      ∃ i j, i < ps.length ∧ j < ps.length ∧ j ≠ i ∧
        x = Real.sqrt (particleSqDeviation (ps.getD i []) (ps.getD j [])) := by
  unfold pairwiseDistances
  simp only [List.mem_flatMap, List.mem_map, List.mem_filter, List.mem_range,
    decide_eq_true_eq]
  constructor
  · rintro ⟨i, hi, j, ⟨hj, hne⟩, rfl⟩
    exact ⟨i, j, hi, hj, hne, rfl⟩
  · rintro ⟨i, j, hi, hj, hne, rfl⟩
    exact ⟨i, hi, j, ⟨hj, hne⟩, rfl⟩

/-- With at least two particles the pairwise-distance list is nonempty. -/
theorem pairwiseDistances_ne_nil (ps : List (List (List ℝ))) (h2 : 2 ≤ ps.length) :
    pairwiseDistances ps ≠ [] := by
  have hmem : Real.sqrt (particleSqDeviation (ps.getD 0 []) (ps.getD 1 [])) ∈
      pairwiseDistances ps :=
    (mem_pairwiseDistances ps _).mpr ⟨0, 1, by omega, by omega, by omega, rfl⟩
  exact List.ne_nil_of_mem hmem

/-- Scaling every particle value by a non-negative `c` scales every pairwise
distance by `c`. -/
theorem pairwiseDistances_map_mul (c : ℝ) (hc : 0 ≤ c) (ps : List (List (List ℝ))) :
    pairwiseDistances (ps.map (fun p => p.map (fun v => v.map (fun t => c * t)))) =
      (pairwiseDistances ps).map (fun x => c * x) := by
  unfold pairwiseDistances
  rw [List.length_map, List.map_flatMap]
  apply List.flatMap_congr
  intro i hi
  rw [List.map_map]
  apply List.map_congr_left
  intro j hj
  have hi' : i < ps.length := List.mem_range.mp hi
  have hj' : j < ps.length := List.mem_range.mp (List.mem_filter.mp hj).1
  have hgi : (ps.map (fun p => p.map (fun v => v.map (fun t => c * t)))).getD i [] =
      (ps.getD i []).map (fun v => v.map (fun t => c * t)) := by
    rw [List.getD_eq_getElem _ _ (by simpa using hi'), List.getD_eq_getElem _ _ hi',
      List.getElem_map]
  have hgj : (ps.map (fun p => p.map (fun v => v.map (fun t => c * t)))).getD j [] =
      (ps.getD j []).map (fun v => v.map (fun t => c * t)) := by
    rw [List.getD_eq_getElem _ _ (by simpa using hj'), List.getD_eq_getElem _ _ hj',
      List.getElem_map]
  simp only [Function.comp_apply, hgi, hgj, particleSqDeviation_map_mul,
    Real.sqrt_mul (sq_nonneg c), Real.sqrt_sq hc]

/-- C6 (amended): the SVGD bandwidth is `2*median(distances)^2/log(n)` over
euclidean inter-particle distances; for more than two particles *whose
pairwise squared deviations are all positive* it is strictly positive, and
rescaling all particle values by a non-negative `c` (which rescales every
pairwise distance by `c`) multiplies it by `c ^ 2`. -/
theorem c6_update_bandwidth_properties (ps : List (List (List ℝ))) (c : ℝ)
    (h2 : 2 < ps.length) (hc : 0 ≤ c)
    (hsep : ∀ i j, i < ps.length → j < ps.length → i ≠ j →
      0 < particleSqDeviation (ps.getD i []) (ps.getD j [])) :
    0 < update_bandwidth ps ∧
    update_bandwidth (ps.map (fun p => p.map (fun v => v.map (fun t => c * t)))) =
      c ^ 2 * update_bandwidth ps := by
  have hpos : ∀ x ∈ pairwiseDistances ps, 0 < x := by
    intro x hx
    rcases (mem_pairwiseDistances ps x).mp hx with ⟨i, j, hi, hj, hne, rfl⟩
    exact Real.sqrt_pos.mpr (hsep i j hi hj (Ne.symm hne))
  have hne_nil := pairwiseDistances_ne_nil ps (by omega)
  have hmed := npMedian_pos _ hne_nil hpos
  have hlog : 0 < Real.log ps.length :=
    Real.log_pos (by exact_mod_cast Nat.one_lt_cast.mpr (by omega))
  constructor
  · unfold update_bandwidth
    exact div_pos (by positivity) hlog
  · unfold update_bandwidth
    rw [List.length_map, pairwiseDistances_map_mul c hc, npMedian_map_mul c hc]
    ring

/-- Counterexample for C6 as stated: three particles with identical values
have particle count above two, yet every pairwise distance is 0, so the
median-heuristic bandwidth is 0, not strictly positive. -/
theorem c6_bandwidth_zero_for_equal_particles :
    2 < ([[[1]], [[1]], [[1]]] : List (List (List ℝ))).length ∧
    ¬ 0 < update_bandwidth [[[1]], [[1]], [[1]]] := by
  refine ⟨by norm_num, ?_⟩
  have hall : ∀ x ∈ pairwiseDistances [[[1]], [[1]], [[1]]], x = 0 := by
    intro x hx
    rcases (mem_pairwiseDistances _ x).mp hx with ⟨i, j, hi, hj, _, rfl⟩
    simp only [List.length_cons, List.length_nil] at hi hj
    have hdev : particleSqDeviation ([[1]] : List (List ℝ)) [[1]] = 0 := by
      norm_num [particleSqDeviation, deviation]
    have hgi : ([[[1]], [[1]], [[1]]] : List (List (List ℝ))).getD i [] = [[1]] := by
      interval_cases i <;> rfl
    have hgj : ([[[1]], [[1]], [[1]]] : List (List (List ℝ))).getD j [] = [[1]] := by
      interval_cases j <;> rfl
    rw [hgi, hgj, hdev, Real.sqrt_zero]
  have hmed := npMedian_all_zero _ hall
  unfold update_bandwidth
  rw [hmed]
  norm_num

/-- Witness for the amended C6 at three scalar particles 0, 3, 7 and scale
factor 2. -/
theorem c6_update_bandwidth_properties_witness :
    2 < ([[[0]], [[3]], [[7]]] : List (List (List ℝ))).length ∧ (0:ℝ) ≤ 2 ∧
    (∀ i j, i < ([[[0]], [[3]], [[7]]] : List (List (List ℝ))).length →
      j < ([[[0]], [[3]], [[7]]] : List (List (List ℝ))).length → i ≠ j →
      0 < particleSqDeviation (([[[0]], [[3]], [[7]]] : List (List (List ℝ))).getD i [])
        (([[[0]], [[3]], [[7]]] : List (List (List ℝ))).getD j [])) ∧
    (0 < update_bandwidth [[[0]], [[3]], [[7]]] ∧
     update_bandwidth (([[[0]], [[3]], [[7]]] : List (List (List ℝ))).map
        (fun p => p.map (fun v => v.map (fun t => 2 * t)))) =
      (2:ℝ) ^ 2 * update_bandwidth [[[0]], [[3]], [[7]]]) := by
  have hsep : ∀ i j, i < ([[[0]], [[3]], [[7]]] : List (List (List ℝ))).length →
      j < ([[[0]], [[3]], [[7]]] : List (List (List ℝ))).length → i ≠ j →
      0 < particleSqDeviation (([[[0]], [[3]], [[7]]] : List (List (List ℝ))).getD i [])
        (([[[0]], [[3]], [[7]]] : List (List (List ℝ))).getD j []) := by
    intro i j hi hj hne
    simp only [List.length_cons, List.length_nil] at hi hj
    interval_cases i <;> interval_cases j <;>
      first
        | exact absurd rfl hne
        | norm_num [particleSqDeviation, deviation]
  exact ⟨by norm_num, by norm_num, hsep,
    c6_update_bandwidth_properties [[[0]], [[3]], [[7]]] 2 (by norm_num) (by norm_num) hsep⟩

/-! ### Claim C9: the Wasserstein particle loss -/

/-- C9 (amended): with `biased=False` the particle loss is the sum over
particles of the importance-weighted cost-statistic distance exactly as the
claim words it; with `biased=True` the uniform `1/number_samples` weights are
computed but NOT applied - the loss is the unweighted accumulation, which is
`number_samples` times the loss the claim describes. -/
theorem c9_get_particle_loss_weighting (number_samples : ℕ) (joint_iw : List (List ℝ))
    (pair_list : List (List (ℝ × List ℝ))) (hns : (number_samples : ℝ) ≠ 0) :
    (get_particle_loss false number_samples joint_iw pair_list =
      claimed_particle_loss false number_samples joint_iw pair_list) ∧
    (get_particle_loss true number_samples joint_iw pair_list =
      (pair_list.map (fun particle =>
        (sumTensors (particle.map (fun vp => cost_function vp.1 vp.2))).sum)).sum) ∧
    (get_particle_loss true number_samples joint_iw pair_list =
      number_samples * claimed_particle_loss true number_samples joint_iw pair_list) := by
  refine ⟨rfl, rfl, ?_⟩
  show (pair_list.map (fun particle =>
      (sumTensors (particle.map (fun vp => cost_function vp.1 vp.2))).sum)).sum =
    (number_samples : ℝ) * (pair_list.map (fun particle =>
      (1 / (number_samples : ℝ)) *
        (sumTensors (particle.map (fun vp => cost_function vp.1 vp.2))).sum)).sum
  rw [List.sum_map_mul_left pair_list
    (fun particle => (sumTensors (particle.map (fun vp => cost_function vp.1 vp.2))).sum)
    (1 / (number_samples : ℝ))]
  field_simp

/-- Counterexample for C9 as stated: one particle, one variable with particle
value 0 and one matched sample 1, `number_samples = 2`, `biased=True`; the
code's loss is 1 (unweighted) while the claimed uniformly-weighted loss is
1/2. -/
theorem c9_biased_branch_ignores_weights :
    get_particle_loss true 2 [] [[((0:ℝ), [1])]] ≠
      claimed_particle_loss true 2 [] [[((0:ℝ), [1])]] := by
  norm_num [get_particle_loss, claimed_particle_loss, cost_function, sumTensors,
    weightedTotal]

/-- Witness for the amended C9 at `number_samples = 2`, one particle with one
variable (particle value 5, matched batch [1, 2], weights [1/3, 2/3]). -/
theorem c9_get_particle_loss_weighting_witness :
    ((2:ℕ):ℝ) ≠ 0 ∧
    ((get_particle_loss false 2 [[1/3, 2/3]] [[((5:ℝ), [1, 2])]] =
      claimed_particle_loss false 2 [[1/3, 2/3]] [[((5:ℝ), [1, 2])]]) ∧
    (get_particle_loss true 2 [[1/3, 2/3]] [[((5:ℝ), [1, 2])]] =
      ([[((5:ℝ), [1, 2])]].map (fun particle =>
        (sumTensors (particle.map (fun vp => cost_function vp.1 vp.2))).sum)).sum) ∧
    (get_particle_loss true 2 [[1/3, 2/3]] [[((5:ℝ), [1, 2])]] =
      2 * claimed_particle_loss true 2 [[1/3, 2/3]] [[((5:ℝ), [1, 2])]])) :=
  ⟨by norm_num,
    by
      have h := c9_get_particle_loss_weighting 2 [[1/3, 2/3]] [[((5:ℝ), [1, 2])]]
        (by norm_num)
      exact_mod_cast h⟩

/-! ### Claim C8: MAP posterior construction and compatibility check -/

/-- The MAP posterior construction is the filter of the drawn sample by
"not observed, not deterministic, not root", mapped to learnable point-mass
variables seeded at the sample value. -/
theorem construct_posterior_model_eq_map_filter
    (test_sample : List (BVar × List (List (List ℝ)))) :
    construct_posterior_model test_sample =
      (test_sample.filter (fun pv => decide (mapFilterPred pv.1))).map
        (fun pv => { name := pv.1.name, kind := VarKind.deterministic, is_observed := false,
                     learnable := true, ival := slice00 pv.2 }) := by
  induction test_sample with
  | nil => rfl
  | cons pv t ih =>
    by_cases h : mapFilterPred pv.1 <;>
      simp [construct_posterior_model, List.filterMap_cons, List.filter_cons, h] <;>
      simpa [construct_posterior_model] using ih

/-- C8: the MAP-constructed posterior model contains exactly one
deterministic learnable variable, seeded at the sampled value, per
non-observed, non-deterministic, non-root variable of the joint sample; and
the compatibility check raises exactly when the supplied posterior model
contains a variable that is neither a root nor a deterministic variable. -/
theorem c8_map_construction_and_check :
    (∀ (test_sample : List (BVar × List (List (List ℝ)))) (w : BVar),
      w ∈ construct_posterior_model test_sample ↔
        ∃ pv ∈ test_sample, mapFilterPred pv.1 ∧
          w = { name := pv.1.name, kind := VarKind.deterministic, is_observed := false,
                learnable := true, ival := slice00 pv.2 }) ∧
    (∀ test_sample : List (BVar × List (List (List ℝ))),
      (construct_posterior_model test_sample).length =
        (test_sample.filter (fun pv => decide (mapFilterPred pv.1))).length) ∧
    (∀ test_sample : List (BVar × List (List (List ℝ))),
      ∀ w ∈ construct_posterior_model test_sample,
        w.kind = VarKind.deterministic ∧ w.learnable = true) ∧
    (∀ posterior_model : List BVar,
      (∃ e, check_model_compatibility posterior_model = Except.error e) ↔
        ∃ v ∈ posterior_model,
          ¬(v.kind = VarKind.root ∨ v.kind = VarKind.deterministic)) := by
  refine ⟨?_, ?_, ?_, ?_⟩
  · intro test_sample w
    rw [construct_posterior_model_eq_map_filter]
    simp only [List.mem_map, List.mem_filter, decide_eq_true_eq]
    constructor
    · rintro ⟨pv, ⟨hmem, hpred⟩, rfl⟩
      exact ⟨pv, hmem, hpred, rfl⟩
    · rintro ⟨pv, hmem, hpred, rfl⟩
      exact ⟨pv, ⟨hmem, hpred⟩, rfl⟩
  · intro test_sample
    rw [construct_posterior_model_eq_map_filter, List.length_map]
  · intro test_sample w hw
    rw [construct_posterior_model_eq_map_filter] at hw
    rcases List.mem_map.mp hw with ⟨pv, _, rfl⟩
    exact ⟨rfl, rfl⟩
  · intro posterior_model
    by_cases h : posterior_model.all (fun v =>
        decide (v.kind = VarKind.root ∨ v.kind = VarKind.deterministic))
    · simp only [check_model_compatibility, h, if_true]
      constructor
      · rintro ⟨e, he⟩
        exact Except.noConfusion he
      · rintro ⟨v, hv, hnk⟩
        exact absurd (of_decide_eq_true (List.all_eq_true.mp h v hv)) hnk
    · simp only [check_model_compatibility, h, if_false]
      constructor
      · rintro _
        rw [List.all_eq_true] at h
        push_neg at h
        rcases h with ⟨v, hv, hd⟩
        exact ⟨v, hv, fun hk => hd (decide_eq_true hk)⟩
      · rintro _
        exact ⟨"AssertionError", rfl⟩

/-! ### Claim C7: the SVGD kernelized gradient correction -/

/-- The per-variable squared deviation is symmetric. -/
theorem deviation_comm (x y : List ℝ) : deviation x y = deviation y x := by
  unfold deviation
  rw [← List.zip_swap x y, List.map_map]
  refine congrArg List.sum (List.map_congr_left (fun p _ => ?_))
  simp only [Function.comp_apply, Prod.fst_swap, Prod.snd_swap]
  ring

/-- The summed squared deviation between particles is symmetric. -/
theorem particleSqDeviation_comm (p q : List (List ℝ)) :
    particleSqDeviation p q = particleSqDeviation q p := by
  unfold particleSqDeviation
  rw [← List.zip_swap p q, List.map_map]
  refine congrArg List.sum (List.map_congr_left (fun vp _ => ?_))
  simp only [Function.comp_apply, Prod.fst_swap, Prod.snd_swap]
  exact deviation_comm _ _

/-- The deviation of a variable value from itself is zero. -/
theorem deviation_self (x : List ℝ) : deviation x x = 0 := by
  induction x with
  | nil => rfl
  | cons a t ih =>
    simp only [deviation, List.zip_cons_cons, List.map_cons, List.sum_cons] at ih ⊢
    rw [ih, sub_self]
    norm_num

/-- The summed squared deviation of a particle from itself is zero. -/
theorem particleSqDeviation_self (p : List (List ℝ)) : particleSqDeviation p p = 0 := by
  induction p with
  | nil => rfl
  | cons a t ih =>
    simp only [particleSqDeviation, List.zip_cons_cons, List.map_cons, List.sum_cons] at ih ⊢
    rw [ih, deviation_self]
    norm_num

/-- The RBF kernel of a zero deviation is one (for any bandwidth). -/
theorem kernel_zero (bw : ℝ) : kernel 0 bw = 1 := by
  simp [kernel]

/-- Indexing a mapped list in range. -/
theorem getD_map_of_lt {α β : Type} (f : α → β) (l : List α) (k : ℕ) (d : β)
    (hk : k < l.length) : (l.map f).getD k d = f l[k] := by
  rw [List.getD_eq_getElem _ _ (by simpa using hk), List.getElem_map]

/-- Indexing an enumerate-then-map list in range. -/
theorem enumMap_getD {α β : Type} (l : List α) (f : ℕ × α → β) (k : ℕ) (d : β)
    (hk : k < l.length) : (l.enum.map f).getD k d = f (k, l[k]) := by
  rw [List.getD_eq_getElem _ _ (by simp [List.enum_length]; omega), List.getElem_map,
    List.getElem_enum]

/-- An enumerate-then-map list is the same map over the index range, reading
the elements back with a default. -/
theorem enum_map_eq_range_map {α β : Type} (l : List α) (f : ℕ × α → β) (d : α) :
    l.enum.map f = (List.range l.length).map (fun k => f (k, l.getD k d)) := by
  apply List.ext_getElem
  · simp [List.enum_length]
  · intro i h1 h2
    simp only [List.length_map, List.enum_length] at h1
    simp only [List.getElem_map, List.getElem_enum, List.getElem_range]
    rw [List.getD_eq_getElem _ _ h1]

/-- Indexing the per-variable list produced by mapping over a zip of two
variable-value lists, with defaults behaving like the empty tensor. -/
theorem zipMap_getD_eq (xs ys : List (List ℝ)) (g : ℝ × ℝ → ℝ) (v : ℕ) :
    ((xs.zip ys).map (fun vp => (vp.1.zip vp.2).map g)).getD v [] =
      ((xs.getD v []).zip (ys.getD v [])).map g := by
  by_cases hx : v < xs.length
  · by_cases hy : v < ys.length
    · rw [getD_map_of_lt _ _ _ _ (by rw [List.length_zip]; omega), List.getElem_zip,
        List.getD_eq_getElem _ _ hx, List.getD_eq_getElem _ _ hy]
    · rw [List.getD_eq_default _ _ (by simp [List.length_zip]; omega),
        List.getD_eq_default ys _ (by omega)]
      simp
  · rw [List.getD_eq_default _ _ (by simp [List.length_zip]; omega),
      List.getD_eq_default xs _ (by omega)]
    simp

/-- Reversing the zip order and negating the difference give the same
repulsion tensor. -/
theorem zip_map_neg_swap (k bw : ℝ) (a b : List ℝ) :
    (b.zip a).map (fun z => -(z.1 - z.2) * k / bw) =
      (a.zip b).map (fun z => (z.1 - z.2) * k / bw) := by
  rw [← List.zip_swap a b, List.map_map]
  congr 1
  funext p
  simp only [Function.comp_apply, Prod.fst_swap, Prod.snd_swap]
  ring

/-- The kernel-matrix entry at row `a`, column `b` (row index ranging over
`particle2`, column over `particle1`). -/
theorem kernelMatrix_getD (bw : ℝ) (ps : List SParticle) (a b : ℕ)
    (ha : a < ps.length) (hb : b < ps.length) :
    ((kernelMatrix bw ps).getD a []).getD b 0 =
      kernel (particleSqDeviation ps[b].values ps[a].values) bw := by
  unfold kernelMatrix
  rw [getD_map_of_lt _ _ _ _ ha, getD_map_of_lt _ _ _ _ hb]

/-- The interaction-matrix entry at `[a][b]` is the per-variable repulsion
tensor between particle `b` (as `particle1`) and particle `a`
(as `particle2`), scaled by `kernel_matrix[b][a]`. -/
theorem interactionMatrix_getD (bw : ℝ) (ps : List SParticle) (a b : ℕ)
    (ha : a < ps.length) (hb : b < ps.length) :
    ((interactionMatrix bw ps).getD a []).getD b [] =
      (ps[b].values.zip ps[a].values).map (fun vp =>
        (vp.1.zip vp.2).map (fun z =>
          -(z.1 - z.2) * (((kernelMatrix bw ps).getD b []).getD a 0) / bw)) := by
  unfold interactionMatrix
  rw [enumMap_getD _ _ _ _ ha, enumMap_getD _ _ _ _ hb]

/-- The first component of `correct_gradient` is the freshly updated
bandwidth. -/
theorem correct_gradient_fst (ps : List SParticle) :
    (correct_gradient ps).1 = update_bandwidth (ps.map (fun p => p.values)) := rfl

/-- The particle list returned by `correct_gradient`, with the internal lets
expanded. -/
theorem correct_gradient_snd (ps : List SParticle) :
    (correct_gradient ps).2 = ps.enum.map (fun pip =>
      { pip.2 with grads := pip.2.grads.enum.map (fun viv =>
          sumTensors ((ps.map (fun p => p.grads)).enum.map (fun og =>
            vadd (vscale
                (((kernelMatrix (update_bandwidth (ps.map (fun p => p.values))) ps).getD
                    pip.1 []).getD og.1 0)
                (og.2.getD viv.1 []))
              ((((interactionMatrix (update_bandwidth (ps.map (fun p => p.values))) ps).getD
                    pip.1 []).getD og.1 []).getD viv.1 [])))) }) := rfl

/-- The gradient `correct_gradient` writes into particle `i` at variable `v`
is the kernel-weighted sum of raw gradients plus the accumulated repulsion
`+(value_i - value_j) * k(i,j) / bw`. -/
theorem correct_gradient_grads_getD (ps : List SParticle) (i v : ℕ)
    (hi : i < ps.length) (hv : v < (ps.getD i SParticle.empty).grads.length) :
    ((correct_gradient ps).2.getD i SParticle.empty).grads.getD v [] =
      steinUpdatedGrad (update_bandwidth (ps.map (fun p => p.values))) ps i v := by
  have hgetDi : ps.getD i SParticle.empty = ps[i] := List.getD_eq_getElem _ _ hi
  rw [hgetDi] at hv
  rw [correct_gradient_snd, enumMap_getD _ _ _ _ hi]
  show (ps[i].grads.enum.map _).getD v [] = _
  rw [enumMap_getD _ _ _ _ hv]
  rw [enum_map_eq_range_map (ps.map (fun p => p.grads)) _ ([] : List (List ℝ)),
    List.length_map]
  unfold steinUpdatedGrad
  refine congrArg sumTensors (List.map_congr_left (fun j hj => ?_))
  have hjlt : j < ps.length := List.mem_range.mp hj
  have hgrads : (ps.map (fun p => p.grads)).getD j [] = ps[j].grads :=
    getD_map_of_lt _ _ _ _ hjlt
  rw [hgrads, kernelMatrix_getD _ ps i j hi hjlt, interactionMatrix_getD _ ps i j hi hjlt]
  simp only [kernelMatrix_getD _ ps j i hjlt hi]
  rw [zipMap_getD_eq, zip_map_neg_swap]
  rw [particleSqDeviation_comm ps[j].values ps[i].values]
  simp only [List.getD_eq_getElem ps SParticle.empty hi, List.getD_eq_getElem ps SParticle.empty hjlt]

/-- C7 (amended): `correct_gradient` first refreshes the bandwidth, its
kernel matrix is symmetric with ones on the diagonal, and each particle's
per-variable gradient is overwritten with the kernel-weighted sum of the raw
gradients plus the repulsion term `+(value_i - value_j) * k(i,j) / bandwidth`
(the claim's sign `-(value_i - value_j)` is the one correction). -/
theorem c7_stein_gradient_correction (ps : List SParticle) (i v : ℕ)
    (hi : i < ps.length) (hv : v < (ps.getD i SParticle.empty).grads.length) :
    (∀ a b, a < ps.length → b < ps.length →
      ((kernelMatrix ((correct_gradient ps).1) ps).getD a []).getD b 0 =
        ((kernelMatrix ((correct_gradient ps).1) ps).getD b []).getD a 0) ∧
    (∀ a, a < ps.length →
      ((kernelMatrix ((correct_gradient ps).1) ps).getD a []).getD a 0 = 1) ∧
    (correct_gradient ps).1 = update_bandwidth (ps.map (fun p => p.values)) ∧
    ((correct_gradient ps).2.getD i SParticle.empty).grads.getD v [] =
      steinUpdatedGrad ((correct_gradient ps).1) ps i v := by
  refine ⟨?_, ?_, correct_gradient_fst ps, ?_⟩
  · intro a b ha hb
    rw [kernelMatrix_getD _ ps a b ha hb, kernelMatrix_getD _ ps b a hb ha,
      particleSqDeviation_comm]
  · intro a ha
    rw [kernelMatrix_getD _ ps a a ha ha, particleSqDeviation_self, kernel_zero]
  · rw [correct_gradient_fst]
    exact correct_gradient_grads_getD ps i v hi hv

/-- Witness for the amended C7 at two concrete one-variable particles. -/
theorem c7_stein_gradient_correction_witness :
    (0 < ([⟨[[0]], [[2]]⟩, ⟨[[1]], [[3]]⟩] : List SParticle).length) ∧
    (0 < (([⟨[[0]], [[2]]⟩, ⟨[[1]], [[3]]⟩] : List SParticle).getD 0
      SParticle.empty).grads.length) ∧
    ((∀ a b, a < ([⟨[[0]], [[2]]⟩, ⟨[[1]], [[3]]⟩] : List SParticle).length →
        b < ([⟨[[0]], [[2]]⟩, ⟨[[1]], [[3]]⟩] : List SParticle).length →
      ((kernelMatrix ((correct_gradient [⟨[[0]], [[2]]⟩, ⟨[[1]], [[3]]⟩]).1)
          [⟨[[0]], [[2]]⟩, ⟨[[1]], [[3]]⟩]).getD a []).getD b 0 =
        ((kernelMatrix ((correct_gradient [⟨[[0]], [[2]]⟩, ⟨[[1]], [[3]]⟩]).1)
          [⟨[[0]], [[2]]⟩, ⟨[[1]], [[3]]⟩]).getD b []).getD a 0) ∧
    (∀ a, a < ([⟨[[0]], [[2]]⟩, ⟨[[1]], [[3]]⟩] : List SParticle).length →
      ((kernelMatrix ((correct_gradient [⟨[[0]], [[2]]⟩, ⟨[[1]], [[3]]⟩]).1)
          [⟨[[0]], [[2]]⟩, ⟨[[1]], [[3]]⟩]).getD a []).getD a 0 = 1) ∧
    (correct_gradient [⟨[[0]], [[2]]⟩, ⟨[[1]], [[3]]⟩]).1 =
      update_bandwidth (([⟨[[0]], [[2]]⟩, ⟨[[1]], [[3]]⟩] : List SParticle).map
        (fun p => p.values)) ∧
    ((correct_gradient [⟨[[0]], [[2]]⟩, ⟨[[1]], [[3]]⟩]).2.getD 0
        SParticle.empty).grads.getD 0 [] =
      steinUpdatedGrad ((correct_gradient [⟨[[0]], [[2]]⟩, ⟨[[1]], [[3]]⟩]).1)
        [⟨[[0]], [[2]]⟩, ⟨[[1]], [[3]]⟩] 0 0) :=
  ⟨by norm_num, by norm_num [List.getD],
    c7_stein_gradient_correction [⟨[[0]], [[2]]⟩, ⟨[[1]], [[3]]⟩] 0 0 (by norm_num)
      (by norm_num [List.getD])⟩

/-- For any positive bandwidth, the source's corrected gradient and the
claimed one differ on the two-particle configuration with values 0 and 1 and
zero raw gradients: the repulsion terms have opposite signs. -/
theorem steinUpdatedGrad_ne_claimed (bw : ℝ) (hbw : 0 < bw) :
    steinUpdatedGrad bw [⟨[[0]], [[0]]⟩, ⟨[[1]], [[0]]⟩] 0 0 ≠
      claimedSteinGrad bw [⟨[[0]], [[0]]⟩, ⟨[[1]], [[0]]⟩] 0 0 := by
  have h00 : particleSqDeviation [[(0:ℝ)]] [[0]] = 0 := by
    norm_num [particleSqDeviation, deviation]
  have h01 : particleSqDeviation [[(0:ℝ)]] [[1]] = 1 := by
    norm_num [particleSqDeviation, deviation]
  simp only [steinUpdatedGrad, claimedSteinGrad, List.range_succ, List.range_zero,
    List.getD, List.map, sumTensors, vadd, vscale, List.zip, h00, h01]
  norm_num
  intro heq
  simp only [vadd, List.zip_cons_cons, List.zip_nil_right, List.map_cons, List.map_nil,
    List.cons.injEq, and_true] at heq
  have hK : 0 < kernel (particleSqDeviation [[(0:ℝ)]] [[1]]) bw := by
    rw [kernel]
    exact Real.exp_pos _
  have hKbw : 0 < kernel (particleSqDeviation [[(0:ℝ)]] [[1]]) bw / bw := div_pos hK hbw
  rw [neg_div] at heq
  linarith

/-- Counterexample for C7 as stated: at two one-variable particles with
values 0 and 1 and zero raw gradients, the gradient `correct_gradient`
actually writes for particle 0 differs from the claim's
`-(value_i - value_j)` repulsion formula (the signs are opposite and the
common factor k(0,1)/bandwidth is nonzero). -/
theorem c7_repulsion_sign_counterexample :
    ((correct_gradient [⟨[[0]], [[0]]⟩, ⟨[[1]], [[0]]⟩]).2.getD 0
        SParticle.empty).grads.getD 0 [] ≠
      claimedSteinGrad ((correct_gradient [⟨[[0]], [[0]]⟩, ⟨[[1]], [[0]]⟩]).1)
        [⟨[[0]], [[0]]⟩, ⟨[[1]], [[0]]⟩] 0 0 := by
  have hlhs := correct_gradient_grads_getD [⟨[[0]], [[0]]⟩, ⟨[[1]], [[0]]⟩] 0 0 (by norm_num)
    (by norm_num [List.getD])
  rw [hlhs, correct_gradient_fst]
  have hmapv : ([⟨[[0]], [[0]]⟩, ⟨[[1]], [[0]]⟩] : List SParticle).map (fun p => p.values) =
      [[[0]], [[1]]] := rfl
  rw [hmapv]
  have hpd : pairwiseDistances [[[0]], [[1]]] = [1, 1] := by
    simp [pairwiseDistances, particleSqDeviation, deviation, List.range_succ]
  have hmed : npMedian [1, 1] = 1 := by
    simp only [npMedian]
    rw [List.Sorted.insertionSort_eq (by simp [List.sorted_cons])]
    norm_num [List.getD]
  have hbw_val : update_bandwidth [[[0]], [[1]]] = 2 / Real.log 2 := by
    unfold update_bandwidth
    rw [hpd, hmed]
    norm_num
  rw [hbw_val]
  exact steinUpdatedGrad_ne_claimed (2 / Real.log 2)
    (div_pos two_pos (Real.log_pos one_lt_two))
